import Mathlib

/-!
Verification of the response demultiplexer (`src/parse.rs`) and the IDLE
handle (`src/extensions/idle.rs`) of the async-imap library.

The asynchronous stream of server responses is embedded as a `List Response`;
each demultiplexer becomes a pure function consuming a prefix of that list and
returning the produced items, the events sent to the unsolicited sink (in send
order), and the unconsumed remainder of the stream.
-/

deriving instance DecidableEq for Except

namespace AsyncImap

/-- IMAP request tags (`imap_proto::RequestId`): opaque equality-comparable
ASCII tokens, embedded as strings. -/
abbrev RequestId := String

/-- Response status (`imap_proto::Status`). -/
inductive IStatus where
  | Ok
  | No
  | Bad
  | PreAuth
  | Bye
deriving DecidableEq, Repr

/-- Response codes (`imap_proto::ResponseCode`), keeping the variants
`parse_mailbox` inspects and collapsing the rest into `Other`. -/
inductive ResponseCode where
  | UidValidity (n : Nat)
  | UidNext (n : Nat)
  | Unseen (n : Nat)
  | PermanentFlags (flags : List String)
  | Other (s : String)
deriving DecidableEq, Repr

/-- STATUS attributes (`imap_proto::StatusAttribute`). -/
inductive StatusAttribute where
  | Messages (n : Nat)
  | Recent (n : Nat)
  | UidNext (n : Nat)
  | UidValidity (n : Nat)
  | Unseen (n : Nat)
deriving DecidableEq, Repr

/-- Mailbox data (`imap_proto::MailboxDatum`).  `List'` embeds
`MailboxDatum::List`; `Lsub` is the LSUB variant, which none of the
demultiplexers name explicitly (it falls into their catch-all arms). -/
inductive MailboxDatum where
  | Exists (n : Nat)
  | Flags (flags : List String)
  | List' (flags : List String) (delimiter : Option String) (name : String)
  | Lsub (flags : List String) (delimiter : Option String) (name : String)
  | Recent (n : Nat)
  | Status (mailbox : String) (status : List StatusAttribute)
deriving DecidableEq, Repr

/-- Parsed server responses (`imap_proto::Response`), restricted to the
variants the two verified files inspect; `Fetch` keeps its attribute list
opaque as strings. -/
inductive Response where
  | Continue (info : Option String)
  | Done (tag : RequestId) (status : IStatus) (code : Option ResponseCode)
  | Data (status : IStatus) (code : Option ResponseCode)
  | MailboxData (d : MailboxDatum)
  | Fetch (n : Nat) (attrs : List String)
  | Expunge (n : Nat)
  | Capabilities (caps : List String)
  | IDs (ids : List Nat)
deriving DecidableEq, Repr

/-- Events fanned out to the unsolicited sink (`UnsolicitedResponse`). -/
inductive UnsolicitedResponse where
  | Status (mailbox : String) (attributes : List StatusAttribute)
  | Recent (n : Nat)
  | Exists (n : Nat)
  | Expunge (n : Nat)
deriving DecidableEq, Repr

/-- The unilateral classifier `handle_unilateral` (parse.rs:287-314).  In the
source it sends the event to the sink and returns `None` when the record is
unilateral, and returns `Some(res)` otherwise; here `some e` means
"consumed, event `e` sent" and `none` means "not consumed". -/
def handle_unilateral : Response → Option UnsolicitedResponse
  | .MailboxData (.Status mailbox status) => some (.Status mailbox status)
  | .MailboxData (.Recent n) => some (.Recent n)
  | .MailboxData (.Exists n) => some (.Exists n)
  | .Expunge n => some (.Expunge n)
  | _ => none

/-- The `take_while` predicate shared by all demultiplexers, negated: `true`
exactly when the record is `Done` with the command's own tag, which stops
(and consumes) the record. -/
def isDoneFor (tag : RequestId) : Response → Bool
  | .Done t _ _ => t == tag
  | _ => false

/-- Result of driving one demultiplexer to completion: the produced value,
the events sent to the unsolicited sink in send order, and the part of the
response stream left unconsumed. -/
structure DemuxRun (α : Type) where
  out : α
  events : List UnsolicitedResponse
  rest : List Response
deriving DecidableEq, Repr

/-- Item produced by `parse_names`.  The source converts each flag through
`NameAttribute::from`; that type lives outside the verified slice, so
attributes stay raw strings. -/
structure Name where
  attributes : List String
  delimiter : Option String
  name : String
deriving DecidableEq, Repr

/-- Item produced by `parse_fetches`: `Fetch::new(resp)` stores the whole
response record for on-demand attribute decoding. -/
structure Fetch where
  resp : Response
deriving DecidableEq, Repr

/-- `parse_names` (parse.rs:12-52): a lazy stream of `Result<Name>` items.
A `MailboxData::List` record yields a `Name`; otherwise the classifier runs,
and an unconsumed record yields an error item unless it is a `Fetch`, which
is silently dropped (the inner `Response::Fetch(..) => None` arm). -/
def parse_names (tag : RequestId) : List Response → DemuxRun (List (Except Response Name))
  | [] => ⟨[], [], []⟩
  | r :: rest =>
    if isDoneFor tag r then ⟨[], [], rest⟩
    else
      let k := parse_names tag rest
      match r with
      | .MailboxData (.List' flags delim nm) =>
          ⟨.ok ⟨flags, delim, nm⟩ :: k.out, k.events, k.rest⟩
      | _ =>
        match handle_unilateral r with
        | some e => ⟨k.out, e :: k.events, k.rest⟩
        | none =>
          match r with
          | .Fetch _ _ => k
          | _ => ⟨.error r :: k.out, k.events, k.rest⟩

/-- `parse_fetches` (parse.rs:54-83): a lazy stream of `Result<Fetch>` items.
The inner `Fetch` arm after the classifier is dead code in the source and is
kept here for faithfulness. -/
def parse_fetches (tag : RequestId) : List Response → DemuxRun (List (Except Response Fetch))
  | [] => ⟨[], [], []⟩
  | r :: rest =>
    if isDoneFor tag r then ⟨[], [], rest⟩
    else
      let k := parse_fetches tag rest
      match r with
      | .Fetch n attrs => ⟨.ok ⟨.Fetch n attrs⟩ :: k.out, k.events, k.rest⟩
      | _ =>
        match handle_unilateral r with
        | some e => ⟨k.out, e :: k.events, k.rest⟩
        | none =>
          match r with
          | .Fetch _ _ => k
          | _ => ⟨.error r :: k.out, k.events, k.rest⟩

/-- `parse_expunge` (parse.rs:85-114): a lazy stream of `Result<u32>` items.
An `Expunge` record is the command's own result and is matched before the
classifier ever sees it; a `Fetch` record surviving the classifier is
silently dropped. -/
def parse_expunge (tag : RequestId) : List Response → DemuxRun (List (Except Response Nat))
  | [] => ⟨[], [], []⟩
  | r :: rest =>
    if isDoneFor tag r then ⟨[], [], rest⟩
    else
      let k := parse_expunge tag rest
      match r with
      | .Expunge n => ⟨.ok n :: k.out, k.events, k.rest⟩
      | _ =>
        match handle_unilateral r with
        | some e => ⟨k.out, e :: k.events, k.rest⟩
        | none =>
          match r with
          | .Fetch _ _ => k
          | _ => ⟨.error r :: k.out, k.events, k.rest⟩

/-- `parse_capabilities` (parse.rs:116-146): eagerly accumulates a
`HashSet<Capability>` across all `Capabilities` records before the matching
`Done`.  `Capability` itself lives outside the verified slice; its hash-set
of capabilities is embedded as a `Finset String` of the raw tokens.  A record
the classifier does not consume causes an early error return, leaving the
rest of the stream unread. -/
def parse_capabilities (tag : RequestId) (caps : Finset String) :
    List Response → DemuxRun (Except Response (Finset String))
  | [] => ⟨.ok caps, [], []⟩
  | r :: rest =>
    if isDoneFor tag r then ⟨.ok caps, [], rest⟩
    else
      match r with
      | .Capabilities cs => parse_capabilities tag (cs.foldl (fun a c => insert c a) caps) rest
      | _ =>
        match handle_unilateral r with
        | some e =>
            let k := parse_capabilities tag caps rest
            ⟨k.out, e :: k.events, k.rest⟩
        | none => ⟨.error r, [], rest⟩

/-- ASCII lower-casing of a string, character by character. -/
def lowerAscii (s : String) : String :=
  ⟨s.data.map (fun c => if 65 ≤ c.toNat ∧ c.toNat ≤ 90 then Char.ofNat (c.toNat + 32) else c)⟩

/-- Modelled from the spec: `Capabilities::has_str` is not under `src/`;
"Comparison among capability strings is case-insensitive (the canonical
spelling IMAP4rev1 must equal IMAP4REV1)" (spec section 4.D).  Membership
therefore compares tokens after case folding. -/
def has_str (caps : Finset String) (s : String) : Bool :=
  decide (∃ c ∈ caps, lowerAscii c = lowerAscii s)

/-- `parse_noop` (parse.rs:148-172): every record before the matching `Done`
must be unilateral; the first record the classifier rejects becomes the
command's error (`collect::<Result<()>>` short-circuits, so the records after
it stay unread). -/
def parse_noop (tag : RequestId) : List Response → DemuxRun (Except Response Unit)
  | [] => ⟨.ok (), [], []⟩
  | r :: rest =>
    if isDoneFor tag r then ⟨.ok (), [], rest⟩
    else
      match handle_unilateral r with
      | some e =>
          let k := parse_noop tag rest
          ⟨k.out, e :: k.events, k.rest⟩
      | none => ⟨.error r, [], rest⟩

/-- `parse_ids` (parse.rs:253-283): eagerly accumulates a `HashSet<u32>` of
ids across all `IDs` (SEARCH) records before the matching `Done`, embedded
as a `Finset Nat`. -/
def parse_ids (tag : RequestId) (ids : Finset Nat) :
    List Response → DemuxRun (Except Response (Finset Nat))
  | [] => ⟨.ok ids, [], []⟩
  | r :: rest =>
    if isDoneFor tag r then ⟨.ok ids, [], rest⟩
    else
      match r with
      | .IDs cs => parse_ids tag (cs.foldl (fun a c => insert c a) ids) rest
      | _ =>
        match handle_unilateral r with
        | some e =>
            let k := parse_ids tag ids rest
            ⟨k.out, e :: k.events, k.rest⟩
        | none => ⟨.error r, [], rest⟩

/-- Modelled from the spec: the `Mailbox` container type is not under `src/`;
its fields follow spec section 3, "Mailbox state" (`exists`, `recent`,
`flags`, `permanent_flags`, `uid_validity`, `uid_next`, `unseen`).  Flag
collections keep the source's `extend` (append) semantics. -/
structure Mailbox where
  flags : List String
  exists_ : Nat
  recent : Nat
  unseen : Option Nat
  permanent_flags : List String
  uid_next : Option Nat
  uid_validity : Option Nat
deriving DecidableEq, Repr

/-- `Mailbox::default()`: all counters zero, collections empty. -/
def Mailbox.default : Mailbox := ⟨[], 0, 0, none, [], none, none⟩

/-- Outcome of `parse_mailbox`: a value, a protocol error carrying the
offending record, or a panic (the source's `unreachable!()`). -/
inductive MailboxOut where
  | ok (m : Mailbox)
  | error (r : Response)
  | panicked
deriving DecidableEq, Repr

/-- `parse_mailbox` (parse.rs:174-251): folds `Data`/`MailboxData`/`Expunge`
records into a `Mailbox` accumulator; `Data` with a non-`Ok` status hits
`unreachable!()`; `MailboxData::Status` and `Expunge` go to the sink;
`MailboxData` variants outside the named ones (such as `Lsub`) fall into the
inner catch-all arm and are silently ignored; anything else is an early
error return. -/
def parse_mailbox (tag : RequestId) (acc : Mailbox) : List Response → DemuxRun MailboxOut
  | [] => ⟨.ok acc, [], []⟩
  | r :: rest =>
    if isDoneFor tag r then ⟨.ok acc, [], rest⟩
    else
      match r with
      | .Data status code =>
        if status = .Ok then
          let acc' :=
            match code with
            | some (.UidValidity n) => { acc with uid_validity := some n }
            | some (.UidNext n) => { acc with uid_next := some n }
            | some (.Unseen n) => { acc with unseen := some n }
            | some (.PermanentFlags fs) => { acc with permanent_flags := acc.permanent_flags ++ fs }
            | _ => acc
          parse_mailbox tag acc' rest
        else ⟨.panicked, [], rest⟩
      | .MailboxData m =>
        match m with
        | .Status mb st =>
            let k := parse_mailbox tag acc rest
            ⟨k.out, .Status mb st :: k.events, k.rest⟩
        | .Exists e => parse_mailbox tag { acc with exists_ := e } rest
        | .Recent n => parse_mailbox tag { acc with recent := n } rest
        | .Flags fs => parse_mailbox tag { acc with flags := acc.flags ++ fs } rest
        | _ => parse_mailbox tag acc rest
      | .Expunge n =>
          let k := parse_mailbox tag acc rest
          ⟨k.out, .Expunge n :: k.events, k.rest⟩
      | _ => ⟨.error r, [], rest⟩

/-- Modelled from the spec: the `Session` facade is not under `src/`; spec
section 4.F describes it as holding the response stream and a record of what
was written to the wire.  `sent` logs each command as (optional tag, verb);
`nextTag` drives tag minting. -/
structure SessionModel where
  sent : List (Option RequestId × String)
  stream : List Response
  nextTag : Nat
deriving DecidableEq, Repr

/-- Modelled from the spec: tags are minted monotonically unique per session
(spec section 6, shape `A[0-9]{4,}`); the exact rendering is opaque to the
verified code, only freshness and equality matter. -/
def mintTag (n : Nat) : RequestId := "A" ++ toString n

/-- Modelled from the spec: `run_command(cmd)` allocates a fresh tag, sends
`tag SP cmd CRLF`, and returns the tag (spec section 4.F). -/
def SessionModel.run_command (s : SessionModel) (cmd : String) : RequestId × SessionModel :=
  let tag := mintTag s.nextTag
  (tag, { s with sent := s.sent ++ [(some tag, cmd)], nextTag := s.nextTag + 1 })

/-- Modelled from the spec: `run_command_untagged(cmd)` sends `cmd CRLF` with
no tag (spec section 4.F). -/
def SessionModel.run_command_untagged (s : SessionModel) (cmd : String) : SessionModel :=
  { s with sent := s.sent ++ [(none, cmd)] }

/-- Errors surfaced by the modelled `check_ok`. -/
inductive CheckErr where
  | eof
  | badResponse (r : Response)
deriving DecidableEq, Repr

/-- Modelled from the spec: `check_ok(tag)` drains responses, routes
unilateral ones, returns when `Done{tag, status = Ok}` is seen and errors
otherwise (spec section 4.F). -/
def check_ok_run (tag : RequestId) :
    List Response → Except CheckErr Unit × List UnsolicitedResponse × List Response
  | [] => (.error .eof, [], [])
  | r :: rest =>
    match r with
    | .Done t status code =>
      if t = tag ∧ status = .Ok then (.ok (), [], rest)
      else (.error (.badResponse (.Done t status code)), [], rest)
    | _ =>
      match handle_unilateral r with
      | some e =>
          let (o, ev, rem) := check_ok_run tag rest
          (o, e :: ev, rem)
      | none => (.error (.badResponse r), [], rest)

/-- The IDLE handle (idle.rs:32-35): a session plus the optional tag minted
when `IDLE` was issued. -/
structure Handle where
  session : SessionModel
  id : Option RequestId
deriving DecidableEq, Repr

/-- `Handle::new` (idle.rs:81-83). -/
def Handle.new (s : SessionModel) : Handle := ⟨s, none⟩

/-- Error returned by `Handle::init` when the stream ends before a
`Continue` (idle.rs:111, `io::ErrorKind::ConnectionRefused`). -/
inductive IdleErr where
  | connectionRefused
deriving DecidableEq, Repr

/-- The read loop of `Handle::init` (idle.rs:99-109): drains responses until
a `Continue`, logging and ignoring anything else; returns the stream
remainder after the `Continue`, or `none` if the stream ended first. -/
def init_loop : List Response → Option (List Response)
  | [] => none
  | r :: rest =>
    match r with
    | .Continue _ => some rest
    | _ => init_loop rest

/-- `Handle::init` (idle.rs:96-112): runs the `IDLE` command, stores the
returned tag in `id`, then drains responses until a `Continue`.  On EOF the
whole stream has been consumed and a connection-refused error is returned;
the `id` assignment is never rolled back. -/
def Handle.init (h : Handle) : Except IdleErr Unit × Handle :=
  let (tag, s₁) := h.session.run_command "IDLE"
  match init_loop s₁.stream with
  | some rest => (.ok (), ⟨{ s₁ with stream := rest }, some tag⟩)
  | none => (.error .connectionRefused, ⟨{ s₁ with stream := [] }, some tag⟩)

/-- Outcome of `Handle::stream` (idle.rs:87-93): panics when `id` is `None`,
otherwise exposes the underlying session stream. -/
inductive StreamOut where
  | panicked
  | idleStream (items : List Response)
deriving DecidableEq, Repr

/-- `Handle::stream` (idle.rs:87-93): asserts `id.is_some()` and returns a
stream forwarding every subsequent response of the session. -/
def Handle.stream (h : Handle) : StreamOut :=
  match h.id with
  | none => .panicked
  | some _ => .idleStream h.session.stream

/-- Outcome of `Handle::done` (idle.rs:116-127): panics when `id` is `None`;
otherwise either fails in `check_ok` or returns the session.  Events routed
by `check_ok` are carried alongside. -/
inductive DoneOut where
  | panicked
  | failed (e : CheckErr) (events : List UnsolicitedResponse)
  | ok (s : SessionModel) (events : List UnsolicitedResponse)
deriving DecidableEq, Repr

/-- `Handle::done` (idle.rs:116-127): asserts `id.is_some()`, sends the
untagged `DONE`, then awaits the `OK` reply carrying the stored tag; on
success the session is returned to the caller. -/
def Handle.done (h : Handle) : DoneOut :=
  match h.id with
  | none => .panicked
  | some tag =>
    let s₁ := h.session.run_command_untagged "DONE"
    match check_ok_run tag s₁.stream with
    | (.ok _, ev, rem) => .ok { s₁ with stream := rem } ev
    | (.error e, ev, _) => .failed e ev

/-!  Theorems.  `TailKept pre post tag st c rest` captures "nothing beyond
the matching `Done` was consumed": either the run stopped by consuming the
`Done` (leaving exactly `post`), or it stopped early inside `pre` (leaving a
suffix of `pre` followed by the untouched `Done` and `post`). -/

def TailKept (pre post : List Response) (tag : RequestId) (st : IStatus)
    (c : Option ResponseCode) (rest : List Response) : Prop :=
  rest = post ∨ ∃ k, rest = pre.drop k ++ (Response.Done tag st c :: post)

lemma parse_names_cons_rest (tag : RequestId) (r : Response) (l : List Response)
    (hr : isDoneFor tag r = false) :
    (parse_names tag (r :: l)).rest = (parse_names tag l).rest := by
  cases r with
  | Done t st c =>
      have h' : (t == tag) = false := by simpa [isDoneFor] using hr
      simp [parse_names, isDoneFor, h', handle_unilateral]
  | MailboxData d => cases d <;> rfl
  | Continue info => rfl
  | Data st c => rfl
  | Fetch n attrs => rfl
  | Expunge n => rfl
  | Capabilities cs => rfl
  | IDs ids => rfl

lemma parse_fetches_cons_rest (tag : RequestId) (r : Response) (l : List Response)
    (hr : isDoneFor tag r = false) :
    (parse_fetches tag (r :: l)).rest = (parse_fetches tag l).rest := by
  cases r with
  | Done t st c =>
      have h' : (t == tag) = false := by simpa [isDoneFor] using hr
      simp [parse_fetches, isDoneFor, h', handle_unilateral]
  | MailboxData d => cases d <;> rfl
  | Continue info => rfl
  | Data st c => rfl
  | Fetch n attrs => rfl
  | Expunge n => rfl
  | Capabilities cs => rfl
  | IDs ids => rfl

lemma parse_expunge_cons_rest (tag : RequestId) (r : Response) (l : List Response)
    (hr : isDoneFor tag r = false) :
    (parse_expunge tag (r :: l)).rest = (parse_expunge tag l).rest := by
  cases r with
  | Done t st c =>
      have h' : (t == tag) = false := by simpa [isDoneFor] using hr
      simp [parse_expunge, isDoneFor, h', handle_unilateral]
  | MailboxData d => cases d <;> rfl
  | Continue info => rfl
  | Data st c => rfl
  | Fetch n attrs => rfl
  | Expunge n => rfl
  | Capabilities cs => rfl
  | IDs ids => rfl

lemma parse_capabilities_cons_rest (tag : RequestId) (caps : Finset String)
    (r : Response) (l : List Response) (hr : isDoneFor tag r = false) :
    (∃ caps', (parse_capabilities tag caps (r :: l)).rest
        = (parse_capabilities tag caps' l).rest)
    ∨ (parse_capabilities tag caps (r :: l)).rest = l := by
  cases r with
  | Done t st c =>
      right
      have h' : (t == tag) = false := by simpa [isDoneFor] using hr
      simp [parse_capabilities, isDoneFor, h', handle_unilateral]
  | Capabilities cs => exact .inl ⟨_, rfl⟩
  | MailboxData d =>
      cases d with
      | Status mb s => exact .inl ⟨caps, rfl⟩
      | Recent n => exact .inl ⟨caps, rfl⟩
      | Exists n => exact .inl ⟨caps, rfl⟩
      | Flags fs => exact .inr rfl
      | List' fs dl nm => exact .inr rfl
      | Lsub fs dl nm => exact .inr rfl
  | Expunge n => exact .inl ⟨caps, rfl⟩
  | Continue info => exact .inr rfl
  | Data st c => exact .inr rfl
  | Fetch n attrs => exact .inr rfl
  | IDs ids => exact .inr rfl

lemma parse_noop_cons_rest (tag : RequestId) (r : Response) (l : List Response)
    (hr : isDoneFor tag r = false) :
    (parse_noop tag (r :: l)).rest = (parse_noop tag l).rest
    ∨ (parse_noop tag (r :: l)).rest = l := by
  cases r with
  | Done t st c =>
      right
      have h' : (t == tag) = false := by simpa [isDoneFor] using hr
      simp [parse_noop, isDoneFor, h', handle_unilateral]
  | MailboxData d =>
      cases d with
      | Status mb s => exact .inl rfl
      | Recent n => exact .inl rfl
      | Exists n => exact .inl rfl
      | Flags fs => exact .inr rfl
      | List' fs dl nm => exact .inr rfl
      | Lsub fs dl nm => exact .inr rfl
  | Expunge n => exact .inl rfl
  | Continue info => exact .inr rfl
  | Data st c => exact .inr rfl
  | Fetch n attrs => exact .inr rfl
  | Capabilities cs => exact .inr rfl
  | IDs ids => exact .inr rfl

lemma parse_ids_cons_rest (tag : RequestId) (ids : Finset Nat)
    (r : Response) (l : List Response) (hr : isDoneFor tag r = false) :
    (∃ ids', (parse_ids tag ids (r :: l)).rest = (parse_ids tag ids' l).rest)
    ∨ (parse_ids tag ids (r :: l)).rest = l := by
  cases r with
  | Done t st c =>
      right
      have h' : (t == tag) = false := by simpa [isDoneFor] using hr
      simp [parse_ids, isDoneFor, h', handle_unilateral]
  | IDs xs => exact .inl ⟨_, rfl⟩
  | MailboxData d =>
      cases d with
      | Status mb s => exact .inl ⟨ids, rfl⟩
      | Recent n => exact .inl ⟨ids, rfl⟩
      | Exists n => exact .inl ⟨ids, rfl⟩
      | Flags fs => exact .inr rfl
      | List' fs dl nm => exact .inr rfl
      | Lsub fs dl nm => exact .inr rfl
  | Expunge n => exact .inl ⟨ids, rfl⟩
  | Continue info => exact .inr rfl
  | Data st c => exact .inr rfl
  | Fetch n attrs => exact .inr rfl
  | Capabilities cs => exact .inr rfl

lemma parse_mailbox_cons_rest (tag : RequestId) (acc : Mailbox)
    (r : Response) (l : List Response) (hr : isDoneFor tag r = false) :
    (∃ acc', (parse_mailbox tag acc (r :: l)).rest = (parse_mailbox tag acc' l).rest)
    ∨ (parse_mailbox tag acc (r :: l)).rest = l := by
  cases r with
  | Done t st c =>
      right
      have h' : (t == tag) = false := by simpa [isDoneFor] using hr
      simp [parse_mailbox, isDoneFor, h', handle_unilateral]
  | Data st c =>
      cases st with
      | Ok => exact .inl ⟨_, rfl⟩
      | No => exact .inr rfl
      | Bad => exact .inr rfl
      | PreAuth => exact .inr rfl
      | Bye => exact .inr rfl
  | MailboxData d =>
      cases d with
      | Status mb s => exact .inl ⟨acc, rfl⟩
      | Recent n => exact .inl ⟨_, rfl⟩
      | Exists n => exact .inl ⟨_, rfl⟩
      | Flags fs => exact .inl ⟨_, rfl⟩
      | List' fs dl nm => exact .inl ⟨acc, rfl⟩
      | Lsub fs dl nm => exact .inl ⟨acc, rfl⟩
  | Expunge n => exact .inl ⟨acc, rfl⟩
  | Continue info => exact .inr rfl
  | Fetch n attrs => exact .inr rfl
  | Capabilities cs => exact .inr rfl
  | IDs xs => exact .inr rfl

lemma parse_names_rest_eq (tag : RequestId) (st : IStatus) (c : Option ResponseCode)
    (post : List Response) :
    ∀ pre, (∀ r ∈ pre, isDoneFor tag r = false) →
      (parse_names tag (pre ++ Response.Done tag st c :: post)).rest = post := by
  intro pre
  induction pre with
  | nil =>
      intro _
      simp [parse_names, isDoneFor]
  | cons r pre ih =>
      intro h
      have hr := h r (List.mem_cons_self r _)
      rw [List.cons_append, parse_names_cons_rest tag r _ hr,
        ih (fun x hx => h x (List.mem_cons_of_mem r hx))]

lemma parse_fetches_rest_eq (tag : RequestId) (st : IStatus) (c : Option ResponseCode)
    (post : List Response) :
    ∀ pre, (∀ r ∈ pre, isDoneFor tag r = false) →
      (parse_fetches tag (pre ++ Response.Done tag st c :: post)).rest = post := by
  intro pre
  induction pre with
  | nil =>
      intro _
      simp [parse_fetches, isDoneFor]
  | cons r pre ih =>
      intro h
      have hr := h r (List.mem_cons_self r _)
      rw [List.cons_append, parse_fetches_cons_rest tag r _ hr,
        ih (fun x hx => h x (List.mem_cons_of_mem r hx))]

lemma parse_expunge_rest_eq (tag : RequestId) (st : IStatus) (c : Option ResponseCode)
    (post : List Response) :
    ∀ pre, (∀ r ∈ pre, isDoneFor tag r = false) →
      (parse_expunge tag (pre ++ Response.Done tag st c :: post)).rest = post := by
  intro pre
  induction pre with
  | nil =>
      intro _
      simp [parse_expunge, isDoneFor]
  | cons r pre ih =>
      intro h
      have hr := h r (List.mem_cons_self r _)
      rw [List.cons_append, parse_expunge_cons_rest tag r _ hr,
        ih (fun x hx => h x (List.mem_cons_of_mem r hx))]

lemma tailKept_lift (pre post : List Response) (tag : RequestId) (st : IStatus)
    (c : Option ResponseCode) (r : Response) (rest : List Response)
    (h : TailKept pre post tag st c rest) : TailKept (r :: pre) post tag st c rest := by
  rcases h with h | ⟨k, hk⟩
  · exact .inl h
  · exact .inr ⟨k + 1, by simpa [List.drop_succ_cons] using hk⟩

lemma parse_capabilities_tailKept (tag : RequestId) (st : IStatus) (c : Option ResponseCode)
    (post : List Response) :
    ∀ pre caps, (∀ r ∈ pre, isDoneFor tag r = false) →
      TailKept pre post tag st c
        (parse_capabilities tag caps (pre ++ Response.Done tag st c :: post)).rest := by
  intro pre
  induction pre with
  | nil =>
      intro caps _
      left
      simp [parse_capabilities, isDoneFor]
  | cons r pre ih =>
      intro caps h
      have hr := h r (List.mem_cons_self r _)
      have h' := fun x hx => h x (List.mem_cons_of_mem r hx)
      rw [List.cons_append]
      rcases parse_capabilities_cons_rest tag caps r _ hr with ⟨caps', hc⟩ | hc
      · rw [hc]
        exact tailKept_lift pre post tag st c r _ (ih caps' h')
      · rw [hc]
        exact .inr ⟨1, by simp⟩

lemma parse_noop_tailKept (tag : RequestId) (st : IStatus) (c : Option ResponseCode)
    (post : List Response) :
    ∀ pre, (∀ r ∈ pre, isDoneFor tag r = false) →
      TailKept pre post tag st c
        (parse_noop tag (pre ++ Response.Done tag st c :: post)).rest := by
  intro pre
  induction pre with
  | nil =>
      intro _
      left
      simp [parse_noop, isDoneFor]
  | cons r pre ih =>
      intro h
      have hr := h r (List.mem_cons_self r _)
      have h' := fun x hx => h x (List.mem_cons_of_mem r hx)
      rw [List.cons_append]
      rcases parse_noop_cons_rest tag r _ hr with hc | hc
      · rw [hc]
        exact tailKept_lift pre post tag st c r _ (ih h')
      · rw [hc]
        exact .inr ⟨1, by simp⟩

lemma parse_ids_tailKept (tag : RequestId) (st : IStatus) (c : Option ResponseCode)
    (post : List Response) :
    ∀ pre ids, (∀ r ∈ pre, isDoneFor tag r = false) →
      TailKept pre post tag st c
        (parse_ids tag ids (pre ++ Response.Done tag st c :: post)).rest := by
  intro pre
  induction pre with
  | nil =>
      intro ids _
      left
      simp [parse_ids, isDoneFor]
  | cons r pre ih =>
      intro ids h
      have hr := h r (List.mem_cons_self r _)
      have h' := fun x hx => h x (List.mem_cons_of_mem r hx)
      rw [List.cons_append]
      rcases parse_ids_cons_rest tag ids r _ hr with ⟨ids', hc⟩ | hc
      · rw [hc]
        exact tailKept_lift pre post tag st c r _ (ih ids' h')
      · rw [hc]
        exact .inr ⟨1, by simp⟩

lemma parse_mailbox_tailKept (tag : RequestId) (st : IStatus) (c : Option ResponseCode)
    (post : List Response) :
    ∀ pre acc, (∀ r ∈ pre, isDoneFor tag r = false) →
      TailKept pre post tag st c
        (parse_mailbox tag acc (pre ++ Response.Done tag st c :: post)).rest := by
  intro pre
  induction pre with
  | nil =>
      intro acc _
      left
      simp [parse_mailbox, isDoneFor]
  | cons r pre ih =>
      intro acc h
      have hr := h r (List.mem_cons_self r _)
      have h' := fun x hx => h x (List.mem_cons_of_mem r hx)
      rw [List.cons_append]
      rcases parse_mailbox_cons_rest tag acc r _ hr with ⟨acc', hc⟩ | hc
      · rw [hc]
        exact tailKept_lift pre post tag st c r _ (ih acc' h')
      · rw [hc]
        exact .inr ⟨1, by simp⟩

/-- C1: for every demultiplexer and every input holding exactly one `Done`
with the command's tag, the run terminates upon consuming that `Done` and
consumes no record beyond it.  The three lazy demultiplexers always stop
with exactly the records after the `Done` left; the four eager ones either
do so or stop early inside the prefix, leaving the `Done` and everything
after it unread (`TailKept`). -/
theorem c1_tag_discipline (tag : RequestId) (st : IStatus) (c : Option ResponseCode)
    (pre post : List Response) (h : ∀ r ∈ pre, isDoneFor tag r = false) :
    (parse_names tag (pre ++ Response.Done tag st c :: post)).rest = post
    ∧ (parse_fetches tag (pre ++ Response.Done tag st c :: post)).rest = post
    ∧ (parse_expunge tag (pre ++ Response.Done tag st c :: post)).rest = post
    ∧ TailKept pre post tag st c
        (parse_capabilities tag ∅ (pre ++ Response.Done tag st c :: post)).rest
    ∧ TailKept pre post tag st c
        (parse_noop tag (pre ++ Response.Done tag st c :: post)).rest
    ∧ TailKept pre post tag st c
        (parse_ids tag ∅ (pre ++ Response.Done tag st c :: post)).rest
    ∧ TailKept pre post tag st c
        (parse_mailbox tag Mailbox.default (pre ++ Response.Done tag st c :: post)).rest :=
  ⟨parse_names_rest_eq tag st c post pre h,
   parse_fetches_rest_eq tag st c post pre h,
   parse_expunge_rest_eq tag st c post pre h,
   parse_capabilities_tailKept tag st c post pre ∅ h,
   parse_noop_tailKept tag st c post pre h,
   parse_ids_tailKept tag st c post pre ∅ h,
   parse_mailbox_tailKept tag st c post pre Mailbox.default h⟩

/-- Witness for C1 at a concrete input: one unilateral record, the matching
`Done`, then one unconsumed trailing record. -/
theorem c1_tag_discipline_witness :
    (∀ r ∈ [Response.Expunge 7], isDoneFor "A1" r = false)
    ∧ ((parse_names "A1" ([Response.Expunge 7] ++ Response.Done "A1" .Ok none :: [Response.Continue none])).rest = [Response.Continue none]
    ∧ (parse_fetches "A1" ([Response.Expunge 7] ++ Response.Done "A1" .Ok none :: [Response.Continue none])).rest = [Response.Continue none]
    ∧ (parse_expunge "A1" ([Response.Expunge 7] ++ Response.Done "A1" .Ok none :: [Response.Continue none])).rest = [Response.Continue none]
    ∧ TailKept [Response.Expunge 7] [Response.Continue none] "A1" .Ok none
        (parse_capabilities "A1" ∅ ([Response.Expunge 7] ++ Response.Done "A1" .Ok none :: [Response.Continue none])).rest
    ∧ TailKept [Response.Expunge 7] [Response.Continue none] "A1" .Ok none
        (parse_noop "A1" ([Response.Expunge 7] ++ Response.Done "A1" .Ok none :: [Response.Continue none])).rest
    ∧ TailKept [Response.Expunge 7] [Response.Continue none] "A1" .Ok none
        (parse_ids "A1" ∅ ([Response.Expunge 7] ++ Response.Done "A1" .Ok none :: [Response.Continue none])).rest
    ∧ TailKept [Response.Expunge 7] [Response.Continue none] "A1" .Ok none
        (parse_mailbox "A1" Mailbox.default ([Response.Expunge 7] ++ Response.Done "A1" .Ok none :: [Response.Continue none])).rest) :=
  ⟨by decide, c1_tag_discipline "A1" .Ok none [Response.Expunge 7] [Response.Continue none] (by decide)⟩

/-!  Shape predicates used to state the unilateral-routing claims. -/

/-- A record is unilateral exactly when the classifier consumes it. -/
def isUnilateral (r : Response) : Bool := (handle_unilateral r).isSome

/-- Command shape of `parse_names`. -/
def isNameShape : Response → Bool
  | .MailboxData (.List' _ _ _) => true
  | _ => false

/-- Command shape of `parse_fetches`. -/
def isFetchShape : Response → Bool
  | .Fetch _ _ => true
  | _ => false

/-- Command shape of `parse_expunge`. -/
def isExpungeShape : Response → Bool
  | .Expunge _ => true
  | _ => false

/-- Command shape of `parse_capabilities`. -/
def isCapShape : Response → Bool
  | .Capabilities _ => true
  | _ => false

/-- Command shape of `parse_ids`. -/
def isIdsShape : Response → Bool
  | .IDs _ => true
  | _ => false

/-- Records `parse_mailbox` folds into its accumulator (or silently
ignores): `Data` with `Ok` status and every `MailboxData` other than
`Status`. -/
def isMailboxFold : Response → Bool
  | .Data .Ok _ => true
  | .MailboxData (.Exists _) => true
  | .MailboxData (.Recent _) => true
  | .MailboxData (.Flags _) => true
  | .MailboxData (.List' _ _ _) => true
  | .MailboxData (.Lsub _ _ _) => true
  | _ => false

/-- Records `parse_mailbox` itself routes to the sink, and the events it
sends for them: `MailboxData::Status` and `Expunge` (its `Exists` and
`Recent` records are part of the command's own result instead). -/
def mailboxEvent : Response → Option UnsolicitedResponse
  | .MailboxData (.Status mb st) => some (.Status mb st)
  | .Expunge n => some (.Expunge n)
  | _ => none

lemma isNameShape_eq (r : Response) (h : isNameShape r = true) :
    ∃ f d n, r = Response.MailboxData (.List' f d n) := by
  rcases r with i | ⟨t, s, cc⟩ | ⟨s, cc⟩ | (n | fs | ⟨f, dl, nm⟩ | ⟨f, dl, nm⟩ | n | ⟨mb, s⟩) |
    ⟨n, a⟩ | n | cs | x <;> simp_all [isNameShape]

lemma isFetchShape_eq (r : Response) (h : isFetchShape r = true) :
    ∃ n a, r = Response.Fetch n a := by
  rcases r with i | ⟨t, s, cc⟩ | ⟨s, cc⟩ | (n | fs | ⟨f, dl, nm⟩ | ⟨f, dl, nm⟩ | n | ⟨mb, s⟩) |
    ⟨n, a⟩ | n | cs | x <;> simp_all [isFetchShape]

lemma isExpungeShape_eq (r : Response) (h : isExpungeShape r = true) :
    ∃ n, r = Response.Expunge n := by
  rcases r with i | ⟨t, s, cc⟩ | ⟨s, cc⟩ | (n | fs | ⟨f, dl, nm⟩ | ⟨f, dl, nm⟩ | n | ⟨mb, s⟩) |
    ⟨n, a⟩ | n | cs | x <;> simp_all [isExpungeShape]

lemma isCapShape_eq (r : Response) (h : isCapShape r = true) :
    ∃ cs, r = Response.Capabilities cs := by
  rcases r with i | ⟨t, s, cc⟩ | ⟨s, cc⟩ | (n | fs | ⟨f, dl, nm⟩ | ⟨f, dl, nm⟩ | n | ⟨mb, s⟩) |
    ⟨n, a⟩ | n | cs | x <;> simp_all [isCapShape]

lemma isIdsShape_eq (r : Response) (h : isIdsShape r = true) :
    ∃ xs, r = Response.IDs xs := by
  rcases r with i | ⟨t, s, cc⟩ | ⟨s, cc⟩ | (n | fs | ⟨f, dl, nm⟩ | ⟨f, dl, nm⟩ | n | ⟨mb, s⟩) |
    ⟨n, a⟩ | n | cs | x <;> simp_all [isIdsShape]

lemma isUnilateral_of_handle (r : Response) (e : UnsolicitedResponse)
    (he : handle_unilateral r = some e) : isUnilateral r = true := by
  simp [isUnilateral, he]

lemma isUnilateral_exists (r : Response) (h : isUnilateral r = true) :
    ∃ e, handle_unilateral r = some e := by
  simpa [isUnilateral, Option.isSome_iff_exists] using h

/-!  One-step behaviour of each demultiplexer on command records and on
unilateral records. -/

lemma parse_names_cons_item (tag : RequestId) (f : List String) (dl : Option String)
    (nm : String) (l : List Response) :
    parse_names tag (Response.MailboxData (.List' f dl nm) :: l)
      = ⟨.ok ⟨f, dl, nm⟩ :: (parse_names tag l).out, (parse_names tag l).events,
          (parse_names tag l).rest⟩ := rfl

lemma parse_fetches_cons_item (tag : RequestId) (n : Nat) (a : List String)
    (l : List Response) :
    parse_fetches tag (Response.Fetch n a :: l)
      = ⟨.ok ⟨Response.Fetch n a⟩ :: (parse_fetches tag l).out, (parse_fetches tag l).events,
          (parse_fetches tag l).rest⟩ := rfl

lemma parse_expunge_cons_item (tag : RequestId) (n : Nat) (l : List Response) :
    parse_expunge tag (Response.Expunge n :: l)
      = ⟨.ok n :: (parse_expunge tag l).out, (parse_expunge tag l).events,
          (parse_expunge tag l).rest⟩ := rfl

lemma parse_capabilities_cons_caps (tag : RequestId) (caps : Finset String)
    (cs : List String) (l : List Response) :
    parse_capabilities tag caps (Response.Capabilities cs :: l)
      = parse_capabilities tag (cs.foldl (fun a c => insert c a) caps) l := rfl

lemma parse_ids_cons_ids (tag : RequestId) (ids : Finset Nat) (xs : List Nat)
    (l : List Response) :
    parse_ids tag ids (Response.IDs xs :: l)
      = parse_ids tag (xs.foldl (fun a c => insert c a) ids) l := rfl

lemma parse_names_cons_uni (tag : RequestId) (r : Response) (l : List Response)
    (e : UnsolicitedResponse) (he : handle_unilateral r = some e) :
    parse_names tag (r :: l)
      = ⟨(parse_names tag l).out, e :: (parse_names tag l).events,
          (parse_names tag l).rest⟩ := by
  rcases r with i | ⟨t, s, cc⟩ | ⟨s, cc⟩ | (n | fs | ⟨f, dl, nm⟩ | ⟨f, dl, nm⟩ | n | ⟨mb, s⟩) |
    ⟨n, a⟩ | n | cs | x <;> simp only [handle_unilateral, Option.some.injEq,
      reduceCtorEq] at he <;> subst he <;> rfl

lemma parse_fetches_cons_uni (tag : RequestId) (r : Response) (l : List Response)
    (e : UnsolicitedResponse) (he : handle_unilateral r = some e) :
    parse_fetches tag (r :: l)
      = ⟨(parse_fetches tag l).out, e :: (parse_fetches tag l).events,
          (parse_fetches tag l).rest⟩ := by
  rcases r with i | ⟨t, s, cc⟩ | ⟨s, cc⟩ | (n | fs | ⟨f, dl, nm⟩ | ⟨f, dl, nm⟩ | n | ⟨mb, s⟩) |
    ⟨n, a⟩ | n | cs | x <;> simp only [handle_unilateral, Option.some.injEq,
      reduceCtorEq] at he <;> subst he <;> rfl

lemma parse_expunge_cons_uni (tag : RequestId) (r : Response) (l : List Response)
    (e : UnsolicitedResponse) (he : handle_unilateral r = some e)
    (hne : isExpungeShape r = false) :
    parse_expunge tag (r :: l)
      = ⟨(parse_expunge tag l).out, e :: (parse_expunge tag l).events,
          (parse_expunge tag l).rest⟩ := by
  rcases r with i | ⟨t, s, cc⟩ | ⟨s, cc⟩ | (n | fs | ⟨f, dl, nm⟩ | ⟨f, dl, nm⟩ | n | ⟨mb, s⟩) |
    ⟨n, a⟩ | n | cs | x <;> simp only [isExpungeShape, reduceCtorEq] at hne <;>
    simp only [handle_unilateral, Option.some.injEq, reduceCtorEq] at he <;> subst he <;> rfl

lemma parse_capabilities_cons_uni (tag : RequestId) (caps : Finset String) (r : Response)
    (l : List Response) (e : UnsolicitedResponse) (he : handle_unilateral r = some e) :
    parse_capabilities tag caps (r :: l)
      = ⟨(parse_capabilities tag caps l).out, e :: (parse_capabilities tag caps l).events,
          (parse_capabilities tag caps l).rest⟩ := by
  rcases r with i | ⟨t, s, cc⟩ | ⟨s, cc⟩ | (n | fs | ⟨f, dl, nm⟩ | ⟨f, dl, nm⟩ | n | ⟨mb, s⟩) |
    ⟨n, a⟩ | n | cs | x <;> simp only [handle_unilateral, Option.some.injEq,
      reduceCtorEq] at he <;> subst he <;> rfl

lemma parse_noop_cons_uni (tag : RequestId) (r : Response) (l : List Response)
    (e : UnsolicitedResponse) (he : handle_unilateral r = some e) :
    parse_noop tag (r :: l)
      = ⟨(parse_noop tag l).out, e :: (parse_noop tag l).events, (parse_noop tag l).rest⟩ := by
  rcases r with i | ⟨t, s, cc⟩ | ⟨s, cc⟩ | (n | fs | ⟨f, dl, nm⟩ | ⟨f, dl, nm⟩ | n | ⟨mb, s⟩) |
    ⟨n, a⟩ | n | cs | x <;> simp only [handle_unilateral, Option.some.injEq,
      reduceCtorEq] at he <;> subst he <;> rfl

lemma parse_ids_cons_uni (tag : RequestId) (ids : Finset Nat) (r : Response)
    (l : List Response) (e : UnsolicitedResponse) (he : handle_unilateral r = some e) :
    parse_ids tag ids (r :: l)
      = ⟨(parse_ids tag ids l).out, e :: (parse_ids tag ids l).events,
          (parse_ids tag ids l).rest⟩ := by
  rcases r with i | ⟨t, s, cc⟩ | ⟨s, cc⟩ | (n | fs | ⟨f, dl, nm⟩ | ⟨f, dl, nm⟩ | n | ⟨mb, s⟩) |
    ⟨n, a⟩ | n | cs | x <;> simp only [handle_unilateral, Option.some.injEq,
      reduceCtorEq] at he <;> subst he <;> rfl

/-- The accumulator update `parse_mailbox` performs on a fold record,
factored out so the two runs compared in the routing claim can be seen to
make the same update. -/
def mailboxFoldStep (acc : Mailbox) : Response → Mailbox
  | .Data _ code =>
    match code with
    | some (.UidValidity n) => { acc with uid_validity := some n }
    | some (.UidNext n) => { acc with uid_next := some n }
    | some (.Unseen n) => { acc with unseen := some n }
    | some (.PermanentFlags fs) => { acc with permanent_flags := acc.permanent_flags ++ fs }
    | _ => acc
  | .MailboxData (.Exists e) => { acc with exists_ := e }
  | .MailboxData (.Recent n) => { acc with recent := n }
  | .MailboxData (.Flags fs) => { acc with flags := acc.flags ++ fs }
  | _ => acc

lemma parse_mailbox_cons_fold (tag : RequestId) (acc : Mailbox) (r : Response)
    (l : List Response) (hf : isMailboxFold r = true) :
    parse_mailbox tag acc (r :: l) = parse_mailbox tag (mailboxFoldStep acc r) l := by
  rcases r with i | ⟨t, s, cc⟩ | ⟨s, cc⟩ | (n | fs | ⟨f, dl, nm⟩ | ⟨f, dl, nm⟩ | n | ⟨mb, s⟩) |
    ⟨n, a⟩ | n | cs | x <;> simp only [isMailboxFold, reduceCtorEq] at hf
  case Data =>
    cases s with
    | Ok => rcases cc with _ | (n | n | n | fs | os) <;> rfl
    | No => simp [isMailboxFold] at hf
    | Bad => simp [isMailboxFold] at hf
    | PreAuth => simp [isMailboxFold] at hf
    | Bye => simp [isMailboxFold] at hf
  all_goals rfl

lemma parse_mailbox_cons_sink (tag : RequestId) (acc : Mailbox) (r : Response)
    (l : List Response) (e : UnsolicitedResponse) (he : mailboxEvent r = some e) :
    parse_mailbox tag acc (r :: l)
      = ⟨(parse_mailbox tag acc l).out, e :: (parse_mailbox tag acc l).events,
          (parse_mailbox tag acc l).rest⟩ := by
  rcases r with i | ⟨t, s, cc⟩ | ⟨s, cc⟩ | (n | fs | ⟨f, dl, nm⟩ | ⟨f, dl, nm⟩ | n | ⟨mb, s⟩) |
    ⟨n, a⟩ | n | cs | x <;> simp only [mailboxEvent, Option.some.injEq,
      reduceCtorEq] at he <;> subst he <;> rfl

lemma parse_names_routing (tag : RequestId) (st : IStatus) (c : Option ResponseCode)
    (post : List Response) :
    ∀ l, (∀ r ∈ l, isNameShape r = true ∨ isUnilateral r = true) →
      (parse_names tag (l ++ Response.Done tag st c :: post)).events
        = l.filterMap handle_unilateral
      ∧ (parse_names tag (l ++ Response.Done tag st c :: post)).out
        = (parse_names tag
            (l.filter (fun r => !isUnilateral r) ++ Response.Done tag st c :: post)).out := by
  intro l
  induction l with
  | nil => exact fun _ => ⟨by simp [parse_names, isDoneFor], rfl⟩
  | cons r l ih =>
    intro h
    obtain ⟨ev, ou⟩ := ih (fun x hx => h x (List.mem_cons_of_mem r hx))
    cases hs : isNameShape r with
    | true =>
      obtain ⟨f, dl, nm, rfl⟩ := isNameShape_eq r hs
      constructor
      · rw [List.cons_append, parse_names_cons_item]
        simpa [List.filterMap_cons, handle_unilateral] using ev
      · have hfilter : (Response.MailboxData (.List' f dl nm) :: l).filter
            (fun r => !isUnilateral r)
            = Response.MailboxData (.List' f dl nm) :: l.filter (fun r => !isUnilateral r) := by
          simp [List.filter_cons, isUnilateral, handle_unilateral]
        rw [List.cons_append, parse_names_cons_item, hfilter, List.cons_append,
          parse_names_cons_item]
        simpa using ou
    | false =>
      have hu : isUnilateral r = true := by
        rcases h r (List.mem_cons_self r _) with h' | h'
        · rw [hs] at h'
          exact absurd h' (by simp)
        · exact h'
      obtain ⟨e, he⟩ := isUnilateral_exists r hu
      have hfilter : (r :: l).filter (fun r => !isUnilateral r)
          = l.filter (fun r => !isUnilateral r) := by
        simp [List.filter_cons, hu]
      constructor
      · rw [List.cons_append, parse_names_cons_uni tag r _ e he]
        simp only [List.filterMap_cons, he]
        exact congrArg (List.cons e) ev
      · rw [List.cons_append, parse_names_cons_uni tag r _ e he, hfilter]
        exact ou

lemma parse_fetches_routing (tag : RequestId) (st : IStatus) (c : Option ResponseCode)
    (post : List Response) :
    ∀ l, (∀ r ∈ l, isFetchShape r = true ∨ isUnilateral r = true) →
      (parse_fetches tag (l ++ Response.Done tag st c :: post)).events
        = l.filterMap handle_unilateral
      ∧ (parse_fetches tag (l ++ Response.Done tag st c :: post)).out
        = (parse_fetches tag
            (l.filter (fun r => !isUnilateral r) ++ Response.Done tag st c :: post)).out := by
  intro l
  induction l with
  | nil => exact fun _ => ⟨by simp [parse_fetches, isDoneFor], rfl⟩
  | cons r l ih =>
    intro h
    obtain ⟨ev, ou⟩ := ih (fun x hx => h x (List.mem_cons_of_mem r hx))
    cases hs : isFetchShape r with
    | true =>
      obtain ⟨n, a, rfl⟩ := isFetchShape_eq r hs
      constructor
      · rw [List.cons_append, parse_fetches_cons_item]
        simpa [List.filterMap_cons, handle_unilateral] using ev
      · have hfilter : (Response.Fetch n a :: l).filter (fun r => !isUnilateral r)
            = Response.Fetch n a :: l.filter (fun r => !isUnilateral r) := by
          simp [List.filter_cons, isUnilateral, handle_unilateral]
        rw [List.cons_append, parse_fetches_cons_item, hfilter, List.cons_append,
          parse_fetches_cons_item]
        simpa using ou
    | false =>
      have hu : isUnilateral r = true := by
        rcases h r (List.mem_cons_self r _) with h' | h'
        · rw [hs] at h'
          exact absurd h' (by simp)
        · exact h'
      obtain ⟨e, he⟩ := isUnilateral_exists r hu
      have hfilter : (r :: l).filter (fun r => !isUnilateral r)
          = l.filter (fun r => !isUnilateral r) := by
        simp [List.filter_cons, hu]
      constructor
      · rw [List.cons_append, parse_fetches_cons_uni tag r _ e he]
        simp only [List.filterMap_cons, he]
        exact congrArg (List.cons e) ev
      · rw [List.cons_append, parse_fetches_cons_uni tag r _ e he, hfilter]
        exact ou

lemma parse_expunge_routing (tag : RequestId) (st : IStatus) (c : Option ResponseCode)
    (post : List Response) :
    ∀ l, (∀ r ∈ l, isExpungeShape r = true ∨ isUnilateral r = true) →
      (parse_expunge tag (l ++ Response.Done tag st c :: post)).events
        = (l.filter (fun r => !isExpungeShape r)).filterMap handle_unilateral
      ∧ (parse_expunge tag (l ++ Response.Done tag st c :: post)).out
        = (parse_expunge tag
            (l.filter (fun r => isExpungeShape r || !isUnilateral r)
              ++ Response.Done tag st c :: post)).out := by
  intro l
  induction l with
  | nil => exact fun _ => ⟨by simp [parse_expunge, isDoneFor], rfl⟩
  | cons r l ih =>
    intro h
    obtain ⟨ev, ou⟩ := ih (fun x hx => h x (List.mem_cons_of_mem r hx))
    cases hs : isExpungeShape r with
    | true =>
      obtain ⟨n, rfl⟩ := isExpungeShape_eq r hs
      constructor
      · rw [List.cons_append, parse_expunge_cons_item]
        have hfilter : (Response.Expunge n :: l).filter (fun r => !isExpungeShape r)
            = l.filter (fun r => !isExpungeShape r) := by
          simp [List.filter_cons, isExpungeShape]
        rw [hfilter]
        exact ev
      · have hfilter : (Response.Expunge n :: l).filter
            (fun r => isExpungeShape r || !isUnilateral r)
            = Response.Expunge n :: l.filter (fun r => isExpungeShape r || !isUnilateral r) := by
          simp [List.filter_cons, isExpungeShape]
        rw [List.cons_append, parse_expunge_cons_item, hfilter, List.cons_append,
          parse_expunge_cons_item]
        simpa using ou
    | false =>
      have hu : isUnilateral r = true := by
        rcases h r (List.mem_cons_self r _) with h' | h'
        · rw [hs] at h'
          exact absurd h' (by simp)
        · exact h'
      obtain ⟨e, he⟩ := isUnilateral_exists r hu
      constructor
      · rw [List.cons_append, parse_expunge_cons_uni tag r _ e he hs]
        have hfilter : (r :: l).filter (fun r => !isExpungeShape r)
            = r :: l.filter (fun r => !isExpungeShape r) := by
          simp [List.filter_cons, hs]
        rw [hfilter]
        simp only [List.filterMap_cons, he]
        exact congrArg (List.cons e) ev
      · have hfilter : (r :: l).filter (fun r => isExpungeShape r || !isUnilateral r)
            = l.filter (fun r => isExpungeShape r || !isUnilateral r) := by
          simp [List.filter_cons, hs, hu]
        rw [List.cons_append, parse_expunge_cons_uni tag r _ e he hs, hfilter]
        exact ou

lemma parse_capabilities_routing (tag : RequestId) (st : IStatus) (c : Option ResponseCode)
    (post : List Response) :
    ∀ l caps, (∀ r ∈ l, isCapShape r = true ∨ isUnilateral r = true) →
      (parse_capabilities tag caps (l ++ Response.Done tag st c :: post)).events
        = l.filterMap handle_unilateral
      ∧ (parse_capabilities tag caps (l ++ Response.Done tag st c :: post)).out
        = (parse_capabilities tag caps
            (l.filter (fun r => !isUnilateral r) ++ Response.Done tag st c :: post)).out := by
  intro l
  induction l with
  | nil => exact fun _ _ => ⟨by simp [parse_capabilities, isDoneFor], rfl⟩
  | cons r l ih =>
    intro caps h
    cases hs : isCapShape r with
    | true =>
      obtain ⟨cs, rfl⟩ := isCapShape_eq r hs
      obtain ⟨ev, ou⟩ := ih (cs.foldl (fun a c => insert c a) caps)
        (fun x hx => h x (List.mem_cons_of_mem _ hx))
      constructor
      · rw [List.cons_append, parse_capabilities_cons_caps]
        simpa [List.filterMap_cons, handle_unilateral] using ev
      · have hfilter : (Response.Capabilities cs :: l).filter (fun r => !isUnilateral r)
            = Response.Capabilities cs :: l.filter (fun r => !isUnilateral r) := by
          simp [List.filter_cons, isUnilateral, handle_unilateral]
        rw [List.cons_append, parse_capabilities_cons_caps, hfilter, List.cons_append,
          parse_capabilities_cons_caps]
        exact ou
    | false =>
      obtain ⟨ev, ou⟩ := ih caps (fun x hx => h x (List.mem_cons_of_mem r hx))
      have hu : isUnilateral r = true := by
        rcases h r (List.mem_cons_self r _) with h' | h'
        · rw [hs] at h'
          exact absurd h' (by simp)
        · exact h'
      obtain ⟨e, he⟩ := isUnilateral_exists r hu
      have hfilter : (r :: l).filter (fun r => !isUnilateral r)
          = l.filter (fun r => !isUnilateral r) := by
        simp [List.filter_cons, hu]
      constructor
      · rw [List.cons_append, parse_capabilities_cons_uni tag caps r _ e he]
        simp only [List.filterMap_cons, he]
        exact congrArg (List.cons e) ev
      · rw [List.cons_append, parse_capabilities_cons_uni tag caps r _ e he, hfilter]
        exact ou

lemma parse_noop_routing (tag : RequestId) (st : IStatus) (c : Option ResponseCode)
    (post : List Response) :
    ∀ l, (∀ r ∈ l, isUnilateral r = true) →
      (parse_noop tag (l ++ Response.Done tag st c :: post)).events
        = l.filterMap handle_unilateral
      ∧ (parse_noop tag (l ++ Response.Done tag st c :: post)).out
        = (parse_noop tag
            (l.filter (fun r => !isUnilateral r) ++ Response.Done tag st c :: post)).out := by
  intro l
  induction l with
  | nil => exact fun _ => ⟨by simp [parse_noop, isDoneFor], rfl⟩
  | cons r l ih =>
    intro h
    obtain ⟨ev, ou⟩ := ih (fun x hx => h x (List.mem_cons_of_mem r hx))
    have hu : isUnilateral r = true := h r (List.mem_cons_self r _)
    obtain ⟨e, he⟩ := isUnilateral_exists r hu
    have hfilter : (r :: l).filter (fun r => !isUnilateral r)
        = l.filter (fun r => !isUnilateral r) := by
      simp [List.filter_cons, hu]
    constructor
    · rw [List.cons_append, parse_noop_cons_uni tag r _ e he]
      simp only [List.filterMap_cons, he]
      exact congrArg (List.cons e) ev
    · rw [List.cons_append, parse_noop_cons_uni tag r _ e he, hfilter]
      exact ou

lemma parse_ids_routing (tag : RequestId) (st : IStatus) (c : Option ResponseCode)
    (post : List Response) :
    ∀ l ids, (∀ r ∈ l, isIdsShape r = true ∨ isUnilateral r = true) →
      (parse_ids tag ids (l ++ Response.Done tag st c :: post)).events
        = l.filterMap handle_unilateral
      ∧ (parse_ids tag ids (l ++ Response.Done tag st c :: post)).out
        = (parse_ids tag ids
            (l.filter (fun r => !isUnilateral r) ++ Response.Done tag st c :: post)).out := by
  intro l
  induction l with
  | nil => exact fun _ _ => ⟨by simp [parse_ids, isDoneFor], rfl⟩
  | cons r l ih =>
    intro ids h
    cases hs : isIdsShape r with
    | true =>
      obtain ⟨xs, rfl⟩ := isIdsShape_eq r hs
      obtain ⟨ev, ou⟩ := ih (xs.foldl (fun a c => insert c a) ids)
        (fun x hx => h x (List.mem_cons_of_mem _ hx))
      constructor
      · rw [List.cons_append, parse_ids_cons_ids]
        simpa [List.filterMap_cons, handle_unilateral] using ev
      · have hfilter : (Response.IDs xs :: l).filter (fun r => !isUnilateral r)
            = Response.IDs xs :: l.filter (fun r => !isUnilateral r) := by
          simp [List.filter_cons, isUnilateral, handle_unilateral]
        rw [List.cons_append, parse_ids_cons_ids, hfilter, List.cons_append,
          parse_ids_cons_ids]
        exact ou
    | false =>
      obtain ⟨ev, ou⟩ := ih ids (fun x hx => h x (List.mem_cons_of_mem r hx))
      have hu : isUnilateral r = true := by
        rcases h r (List.mem_cons_self r _) with h' | h'
        · rw [hs] at h'
          exact absurd h' (by simp)
        · exact h'
      obtain ⟨e, he⟩ := isUnilateral_exists r hu
      have hfilter : (r :: l).filter (fun r => !isUnilateral r)
          = l.filter (fun r => !isUnilateral r) := by
        simp [List.filter_cons, hu]
      constructor
      · rw [List.cons_append, parse_ids_cons_uni tag ids r _ e he]
        simp only [List.filterMap_cons, he]
        exact congrArg (List.cons e) ev
      · rw [List.cons_append, parse_ids_cons_uni tag ids r _ e he, hfilter]
        exact ou

lemma mailboxEvent_of_fold (r : Response) (h : isMailboxFold r = true) :
    mailboxEvent r = none := by
  rcases r with i | ⟨t, s, cc⟩ | ⟨s, cc⟩ | (n | fs | ⟨f, dl, nm⟩ | ⟨f, dl, nm⟩ | n | ⟨mb, s⟩) |
    ⟨n, a⟩ | n | cs | x <;> simp_all [isMailboxFold, mailboxEvent]

lemma parse_mailbox_routing (tag : RequestId) (st : IStatus) (c : Option ResponseCode)
    (post : List Response) :
    ∀ l acc, (∀ r ∈ l, isMailboxFold r = true ∨ (mailboxEvent r).isSome = true) →
      (parse_mailbox tag acc (l ++ Response.Done tag st c :: post)).events
        = l.filterMap mailboxEvent
      ∧ (parse_mailbox tag acc (l ++ Response.Done tag st c :: post)).out
        = (parse_mailbox tag acc
            (l.filter (fun r => !(mailboxEvent r).isSome)
              ++ Response.Done tag st c :: post)).out := by
  intro l
  induction l with
  | nil => exact fun _ _ => ⟨by simp [parse_mailbox, isDoneFor], rfl⟩
  | cons r l ih =>
    intro acc h
    cases hfold : isMailboxFold r with
    | true =>
      obtain ⟨ev, ou⟩ := ih (mailboxFoldStep acc r)
        (fun x hx => h x (List.mem_cons_of_mem r hx))
      have hnone := mailboxEvent_of_fold r hfold
      constructor
      · rw [List.cons_append, parse_mailbox_cons_fold tag acc r _ hfold]
        simp only [List.filterMap_cons, hnone]
        exact ev
      · have hfilter : (r :: l).filter (fun r => !(mailboxEvent r).isSome)
            = r :: l.filter (fun r => !(mailboxEvent r).isSome) := by
          simp [List.filter_cons, hnone]
        rw [List.cons_append, parse_mailbox_cons_fold tag acc r _ hfold, hfilter,
          List.cons_append, parse_mailbox_cons_fold tag acc r _ hfold]
        exact ou
    | false =>
      obtain ⟨ev, ou⟩ := ih acc (fun x hx => h x (List.mem_cons_of_mem r hx))
      have hsink : (mailboxEvent r).isSome = true := by
        rcases h r (List.mem_cons_self r _) with h' | h'
        · rw [hfold] at h'
          exact absurd h' (by simp)
        · exact h'
      obtain ⟨e, he⟩ := Option.isSome_iff_exists.mp hsink
      have hfilter : (r :: l).filter (fun r => !(mailboxEvent r).isSome)
          = l.filter (fun r => !(mailboxEvent r).isSome) := by
        simp [List.filter_cons, hsink, he]
      constructor
      · rw [List.cons_append, parse_mailbox_cons_sink tag acc r _ e he]
        simp only [List.filterMap_cons, he]
        exact congrArg (List.cons e) ev
      · rw [List.cons_append, parse_mailbox_cons_sink tag acc r _ e he, hfilter]
        exact ou

/-- C2: for every demultiplexer and any interleaving of unilateral records
(those of the four classifier shapes, excluding shapes that are the
command's own result: `Expunge` for `parse_expunge`, and `Exists`/`Recent`
for `parse_mailbox`, whose sink shapes are `Status` and `Expunge`) among
command-specific records, the sink receives exactly the corresponding
events in arrival order, and the result equals the result on the same
sequence with the unilateral records removed. -/
theorem c2_unilateral_routing (tag : RequestId) (st : IStatus) (c : Option ResponseCode)
    (l post : List Response) :
    ((∀ r ∈ l, isNameShape r = true ∨ isUnilateral r = true) →
      (parse_names tag (l ++ Response.Done tag st c :: post)).events
        = l.filterMap handle_unilateral
      ∧ (parse_names tag (l ++ Response.Done tag st c :: post)).out
        = (parse_names tag
            (l.filter (fun r => !isUnilateral r) ++ Response.Done tag st c :: post)).out)
    ∧ ((∀ r ∈ l, isFetchShape r = true ∨ isUnilateral r = true) →
      (parse_fetches tag (l ++ Response.Done tag st c :: post)).events
        = l.filterMap handle_unilateral
      ∧ (parse_fetches tag (l ++ Response.Done tag st c :: post)).out
        = (parse_fetches tag
            (l.filter (fun r => !isUnilateral r) ++ Response.Done tag st c :: post)).out)
    ∧ ((∀ r ∈ l, isExpungeShape r = true ∨ isUnilateral r = true) →
      (parse_expunge tag (l ++ Response.Done tag st c :: post)).events
        = (l.filter (fun r => !isExpungeShape r)).filterMap handle_unilateral
      ∧ (parse_expunge tag (l ++ Response.Done tag st c :: post)).out
        = (parse_expunge tag
            (l.filter (fun r => isExpungeShape r || !isUnilateral r)
              ++ Response.Done tag st c :: post)).out)
    ∧ ((∀ r ∈ l, isCapShape r = true ∨ isUnilateral r = true) →
      (parse_capabilities tag ∅ (l ++ Response.Done tag st c :: post)).events
        = l.filterMap handle_unilateral
      ∧ (parse_capabilities tag ∅ (l ++ Response.Done tag st c :: post)).out
        = (parse_capabilities tag ∅
            (l.filter (fun r => !isUnilateral r) ++ Response.Done tag st c :: post)).out)
    ∧ ((∀ r ∈ l, isUnilateral r = true) →
      (parse_noop tag (l ++ Response.Done tag st c :: post)).events
        = l.filterMap handle_unilateral
      ∧ (parse_noop tag (l ++ Response.Done tag st c :: post)).out
        = (parse_noop tag
            (l.filter (fun r => !isUnilateral r) ++ Response.Done tag st c :: post)).out)
    ∧ ((∀ r ∈ l, isIdsShape r = true ∨ isUnilateral r = true) →
      (parse_ids tag ∅ (l ++ Response.Done tag st c :: post)).events
        = l.filterMap handle_unilateral
      ∧ (parse_ids tag ∅ (l ++ Response.Done tag st c :: post)).out
        = (parse_ids tag ∅
            (l.filter (fun r => !isUnilateral r) ++ Response.Done tag st c :: post)).out)
    ∧ ((∀ r ∈ l, isMailboxFold r = true ∨ (mailboxEvent r).isSome = true) →
      (parse_mailbox tag Mailbox.default (l ++ Response.Done tag st c :: post)).events
        = l.filterMap mailboxEvent
      ∧ (parse_mailbox tag Mailbox.default (l ++ Response.Done tag st c :: post)).out
        = (parse_mailbox tag Mailbox.default
            (l.filter (fun r => !(mailboxEvent r).isSome)
              ++ Response.Done tag st c :: post)).out) :=
  ⟨parse_names_routing tag st c post l,
   parse_fetches_routing tag st c post l,
   parse_expunge_routing tag st c post l,
   parse_capabilities_routing tag st c post l ∅,
   parse_noop_routing tag st c post l,
   parse_ids_routing tag st c post l ∅,
   parse_mailbox_routing tag st c post l Mailbox.default⟩

/-- Witness for C2 at a concrete input: a single unilateral `RECENT` record,
which every demultiplexer routes to the sink while its result is unchanged
versus the empty command body. -/
theorem c2_unilateral_routing_witness :
    ((parse_names "A1" ([Response.MailboxData (.Recent 1)] ++ Response.Done "A1" .Ok none :: [])).events
        = [Response.MailboxData (.Recent 1)].filterMap handle_unilateral
      ∧ (parse_names "A1" ([Response.MailboxData (.Recent 1)] ++ Response.Done "A1" .Ok none :: [])).out
        = (parse_names "A1"
            ([Response.MailboxData (.Recent 1)].filter (fun r => !isUnilateral r)
              ++ Response.Done "A1" .Ok none :: [])).out)
    ∧ ((parse_expunge "A1" ([Response.MailboxData (.Recent 1)] ++ Response.Done "A1" .Ok none :: [])).events
        = ([Response.MailboxData (.Recent 1)].filter (fun r => !isExpungeShape r)).filterMap handle_unilateral
      ∧ (parse_expunge "A1" ([Response.MailboxData (.Recent 1)] ++ Response.Done "A1" .Ok none :: [])).out
        = (parse_expunge "A1"
            ([Response.MailboxData (.Recent 1)].filter (fun r => isExpungeShape r || !isUnilateral r)
              ++ Response.Done "A1" .Ok none :: [])).out)
    ∧ ((parse_noop "A1" ([Response.MailboxData (.Recent 1)] ++ Response.Done "A1" .Ok none :: [])).events
        = [Response.MailboxData (.Recent 1)].filterMap handle_unilateral)
    ∧ ((parse_mailbox "A1" Mailbox.default
          ([Response.MailboxData (.Recent 1)] ++ Response.Done "A1" .Ok none :: [])).events
        = [Response.MailboxData (.Recent 1)].filterMap mailboxEvent) :=
  ⟨(c2_unilateral_routing "A1" .Ok none [Response.MailboxData (.Recent 1)] []).1 (by decide),
   (c2_unilateral_routing "A1" .Ok none [Response.MailboxData (.Recent 1)] []).2.2.1 (by decide),
   ((c2_unilateral_routing "A1" .Ok none [Response.MailboxData (.Recent 1)] []).2.2.2.2.1 (by decide)).1,
   ((c2_unilateral_routing "A1" .Ok none [Response.MailboxData (.Recent 1)] []).2.2.2.2.2.2 (by decide)).1⟩

/-- C3 counterexample: in `parse_names`, a `Fetch` record is neither the
matching `Done`, nor the command shape, nor unilateral, yet the output
stream contains no error item for it — the record is silently dropped. -/
theorem c3_counterexample :
    isNameShape (Response.Fetch 37 []) = false
    ∧ isUnilateral (Response.Fetch 37 []) = false
    ∧ isDoneFor "A1" (Response.Fetch 37 []) = false
    ∧ (parse_names "A1" [Response.Fetch 37 [], Response.Done "A1" .Ok none]).out = [] := by
  decide

/-- C3 amended: each lazy demultiplexer produces an error item for a record
that is neither the matching `Done`, nor its command shape, nor unilateral,
EXCEPT `Fetch` records, which `parse_names` and `parse_expunge` silently
discard. -/
theorem c3_lazy_error_items (tag : RequestId) (r : Response) (l : List Response)
    (hd : isDoneFor tag r = false) (hu : isUnilateral r = false)
    (hf : isFetchShape r = false) :
    (isNameShape r = false →
      (parse_names tag (r :: l)).out = .error r :: (parse_names tag l).out)
    ∧ ((parse_fetches tag (r :: l)).out = .error r :: (parse_fetches tag l).out)
    ∧ (isExpungeShape r = false →
      (parse_expunge tag (r :: l)).out = .error r :: (parse_expunge tag l).out) := by
  refine ⟨?_, ?_, ?_⟩
  · intro hn
    rcases r with i | ⟨t, s, cc⟩ | ⟨s, cc⟩ | (n | fs | ⟨f, dl, nm⟩ | ⟨f, dl, nm⟩ | n | ⟨mb, s⟩) |
      ⟨n, a⟩ | n | cs | x <;>
      simp_all [parse_names, isDoneFor, isUnilateral, handle_unilateral, isNameShape,
        isFetchShape]
  · rcases r with i | ⟨t, s, cc⟩ | ⟨s, cc⟩ | (n | fs | ⟨f, dl, nm⟩ | ⟨f, dl, nm⟩ | n | ⟨mb, s⟩) |
      ⟨n, a⟩ | n | cs | x <;>
      simp_all [parse_fetches, isDoneFor, isUnilateral, handle_unilateral, isFetchShape]
  · intro hx
    rcases r with i | ⟨t, s, cc⟩ | ⟨s, cc⟩ | (n | fs | ⟨f, dl, nm⟩ | ⟨f, dl, nm⟩ | n | ⟨mb, s⟩) |
      ⟨n, a⟩ | n | cs | x <;>
      simp_all [parse_expunge, isDoneFor, isUnilateral, handle_unilateral, isExpungeShape,
        isFetchShape]

/-- Witness for C3 amended: a `Continue` record becomes an error item in all
three lazy streams. -/
theorem c3_lazy_error_items_witness :
    (parse_names "A1" [Response.Continue none]).out = [.error (Response.Continue none)]
    ∧ (parse_fetches "A1" [Response.Continue none]).out = [.error (Response.Continue none)]
    ∧ (parse_expunge "A1" [Response.Continue none]).out = [.error (Response.Continue none)] :=
  ⟨(c3_lazy_error_items "A1" (Response.Continue none) [] (by decide) (by decide)
      (by decide)).1 (by decide),
   (c3_lazy_error_items "A1" (Response.Continue none) [] (by decide) (by decide)
      (by decide)).2.1,
   (c3_lazy_error_items "A1" (Response.Continue none) [] (by decide) (by decide)
      (by decide)).2.2 (by decide)⟩

/-- C4 counterexample: `MailboxData::Lsub` is outside the claim's listed
enumeration, yet `parse_mailbox` silently ignores it (inner catch-all arm)
instead of returning an error. -/
theorem c4_counterexample :
    (parse_mailbox "A1" Mailbox.default
      [Response.MailboxData (.Lsub [] none "x"), Response.Done "A1" .Ok none]).out
      = .ok Mailbox.default := by decide

/-- The records `parse_mailbox` actually rejects with a protocol error:
`Continue`, `Fetch`, `Capabilities`, `IDs` and a `Done` carrying a foreign
tag. -/
def isMailboxReject (tag : RequestId) : Response → Bool
  | .Continue _ => true
  | .Fetch _ _ => true
  | .Capabilities _ => true
  | .IDs _ => true
  | .Done t _ _ => !(t == tag)
  | _ => false

/-- C4 amended: `parse_mailbox` returns a protocol error exactly on
`Continue`, `Fetch`, `Capabilities`, `IDs` and foreign-tagged `Done`
records; any `MailboxData` variant outside the listed fold cases (such as
`Lsub`) is silently ignored rather than rejected. -/
theorem c4_mailbox_errors (tag : RequestId) (l : List Response) (acc : Mailbox) :
    (∀ r, isMailboxReject tag r = true → (parse_mailbox tag acc (r :: l)).out = .error r)
    ∧ (∀ f d n, parse_mailbox tag acc (Response.MailboxData (.Lsub f d n) :: l)
        = parse_mailbox tag acc l) := by
  constructor
  · intro r h
    rcases r with i | ⟨t, s, cc⟩ | ⟨s, cc⟩ | (n | fs | ⟨f, dl, nm⟩ | ⟨f, dl, nm⟩ | n | ⟨mb, s⟩) |
      ⟨n, a⟩ | n | cs | x <;>
      simp_all [parse_mailbox, isDoneFor, isMailboxReject, handle_unilateral]
  · intro f d n
    rfl

/-- Witness for C4 amended: a `Continue` record is rejected while an `Lsub`
record is skipped. -/
theorem c4_mailbox_errors_witness :
    isMailboxReject "A1" (Response.Continue none) = true
    ∧ (parse_mailbox "A1" Mailbox.default [Response.Continue none]).out
        = .error (Response.Continue none)
    ∧ parse_mailbox "A1" Mailbox.default [Response.MailboxData (.Lsub [] none "x")]
        = parse_mailbox "A1" Mailbox.default [] :=
  ⟨by decide,
   (c4_mailbox_errors "A1" [] Mailbox.default).1 (Response.Continue none) (by decide),
   (c4_mailbox_errors "A1" [] Mailbox.default).2 [] none "x"⟩

lemma foldl_insert_eq {α : Type} [DecidableEq α] :
    ∀ (xs : List α) (acc : Finset α),
      xs.foldl (fun a c => insert c a) acc = acc ∪ xs.toFinset := by
  intro xs
  induction xs with
  | nil => intro acc; simp
  | cons x xs ih =>
    intro acc
    rw [List.foldl_cons, ih (insert x acc), List.toFinset_cons]
    ext y
    simp

lemma parse_ids_union (tag : RequestId) (st : IStatus) (c : Option ResponseCode) :
    ∀ (lists : List (List Nat)) (acc : Finset Nat),
      (parse_ids tag acc ((lists.map Response.IDs) ++ [Response.Done tag st c])).out
        = .ok (acc ∪ lists.foldr (fun xs s => xs.toFinset ∪ s) ∅) := by
  intro lists
  induction lists with
  | nil => intro acc; simp [parse_ids, isDoneFor]
  | cons xs lists ih =>
    intro acc
    rw [List.map_cons, List.cons_append, parse_ids_cons_ids, foldl_insert_eq, ih]
    rw [List.foldr_cons, Finset.union_assoc]

lemma parse_capabilities_union (tag : RequestId) (st : IStatus) (c : Option ResponseCode) :
    ∀ (lists : List (List String)) (acc : Finset String),
      (parse_capabilities tag acc
          ((lists.map Response.Capabilities) ++ [Response.Done tag st c])).out
        = .ok (acc ∪ lists.foldr (fun cs s => cs.toFinset ∪ s) ∅) := by
  intro lists
  induction lists with
  | nil => intro acc; simp [parse_capabilities, isDoneFor]
  | cons cs lists ih =>
    intro acc
    rw [List.map_cons, List.cons_append, parse_capabilities_cons_caps, foldl_insert_eq, ih]
    rw [List.foldr_cons, Finset.union_assoc]

/-- C6: `parse_ids` on a sequence of SEARCH id lists followed by the
matching `Done` returns the set-union of their `toFinset`s — so the result
is independent of the order of ids within and across records, duplicates
are collapsed, and an empty SEARCH line yields the empty set. -/
theorem c6_search_union (tag : RequestId) (st : IStatus) (c : Option ResponseCode)
    (lists : List (List Nat)) :
    (parse_ids tag ∅ ((lists.map Response.IDs) ++ [Response.Done tag st c])).out
      = .ok (lists.foldr (fun xs s => xs.toFinset ∪ s) ∅)
    ∧ (parse_ids tag ∅ ([Response.IDs []] ++ [Response.Done tag st c])).out
      = .ok (∅ : Finset Nat) := by
  constructor
  · rw [parse_ids_union tag st c lists ∅]
    simp
  · rw [show [Response.IDs []] = ([[]] : List (List Nat)).map Response.IDs from rfl,
      parse_ids_union tag st c [[]] ∅]
    simp

/-- C7: `parse_capabilities` merges the token lists of all `Capabilities`
records before the matching `Done` into one set, and `has_str` membership
is case-insensitive: after parsing either spelling of the capability line,
`has_str "IMAP4rev1"` holds. -/
theorem c7_capability_case (tag : RequestId) (st : IStatus) (c : Option ResponseCode)
    (lists : List (List String)) :
    (parse_capabilities tag ∅
        ((lists.map Response.Capabilities) ++ [Response.Done tag st c])).out
      = .ok (lists.foldr (fun cs s => cs.toFinset ∪ s) ∅)
    ∧ (parse_capabilities tag ∅
        [Response.Capabilities ["IMAP4rev1"], Response.Done tag st c]).out
      = .ok {"IMAP4rev1"}
    ∧ has_str {"IMAP4rev1"} "IMAP4rev1" = true
    ∧ (parse_capabilities tag ∅
        [Response.Capabilities ["IMAP4REV1"], Response.Done tag st c]).out
      = .ok {"IMAP4REV1"}
    ∧ has_str {"IMAP4REV1"} "IMAP4rev1" = true := by
  refine ⟨?_, ?_, by decide, ?_, by decide⟩
  · rw [parse_capabilities_union tag st c lists ∅]
    simp
  · rw [show [Response.Capabilities ["IMAP4rev1"], Response.Done tag st c]
        = (([["IMAP4rev1"]] : List (List String)).map Response.Capabilities)
          ++ [Response.Done tag st c] from rfl,
      parse_capabilities_union tag st c [["IMAP4rev1"]] ∅]
    simp
  · rw [show [Response.Capabilities ["IMAP4REV1"], Response.Done tag st c]
        = (([["IMAP4REV1"]] : List (List String)).map Response.Capabilities)
          ++ [Response.Done tag st c] from rfl,
      parse_capabilities_union tag st c [["IMAP4REV1"]] ∅]
    simp

/-- Records `parse_mailbox` consumes and then continues past: `Data` with
`Ok` status, any `MailboxData`, and `Expunge`. -/
def isMailboxPass : Response → Bool
  | .Data .Ok _ => true
  | .MailboxData _ => true
  | .Expunge _ => true
  | _ => false

lemma mailboxPass_cases (r : Response) (h : isMailboxPass r = true) :
    isMailboxFold r = true ∨ ∃ e, mailboxEvent r = some e := by
  rcases r with i | ⟨t, s, cc⟩ | ⟨s, cc⟩ | (n | fs | ⟨f, dl, nm⟩ | ⟨f, dl, nm⟩ | n | ⟨mb, s⟩) |
    ⟨n, a⟩ | n | cs | x <;> simp_all [isMailboxPass, isMailboxFold, mailboxEvent]
  case Data =>
    cases s <;> simp_all [isMailboxPass, isMailboxFold]

lemma parse_mailbox_no_panic (tag : RequestId) :
    ∀ (l : List Response) (acc : Mailbox),
      (∀ s cc, Response.Data s cc ∈ l → s = IStatus.Ok) →
      (parse_mailbox tag acc l).out ≠ .panicked := by
  intro l
  induction l with
  | nil => intro acc _; simp [parse_mailbox]
  | cons r l ih =>
    intro acc hok
    have hok' : ∀ s cc, Response.Data s cc ∈ l → s = IStatus.Ok :=
      fun s cc hm => hok s cc (List.mem_cons_of_mem r hm)
    rcases r with i | ⟨t, s, cc⟩ | ⟨s, cc⟩ | (n | fs | ⟨f, dl, nm⟩ | ⟨f, dl, nm⟩ | n | ⟨mb, s⟩) |
      ⟨n, a⟩ | n | cs | x
    case Continue => simp [parse_mailbox, isDoneFor]
    case Done =>
      cases hst : (t == tag) with
      | true => simp [parse_mailbox, isDoneFor, hst]
      | false => simp [parse_mailbox, isDoneFor, hst, handle_unilateral]
    case Data =>
      have hs : s = IStatus.Ok := hok s cc (List.mem_cons_self _ _)
      subst hs
      rw [parse_mailbox_cons_fold tag acc _ l (by simp [isMailboxFold])]
      exact ih _ hok'
    case MailboxData.Status =>
      rw [parse_mailbox_cons_sink tag acc (Response.MailboxData (.Status mb s)) l
        (.Status mb s) rfl]
      exact ih _ hok'
    case MailboxData.Exists =>
      rw [parse_mailbox_cons_fold tag acc _ l (by simp [isMailboxFold])]
      exact ih _ hok'
    case MailboxData.Recent =>
      rw [parse_mailbox_cons_fold tag acc _ l (by simp [isMailboxFold])]
      exact ih _ hok'
    case MailboxData.Flags =>
      rw [parse_mailbox_cons_fold tag acc _ l (by simp [isMailboxFold])]
      exact ih _ hok'
    case MailboxData.List' =>
      rw [parse_mailbox_cons_fold tag acc _ l (by simp [isMailboxFold])]
      exact ih _ hok'
    case MailboxData.Lsub =>
      rw [parse_mailbox_cons_fold tag acc _ l (by simp [isMailboxFold])]
      exact ih _ hok'
    case Expunge =>
      rw [parse_mailbox_cons_sink tag acc (Response.Expunge n) l (.Expunge n) rfl]
      exact ih _ hok'
    case Fetch => simp [parse_mailbox, isDoneFor, handle_unilateral]
    case Capabilities => simp [parse_mailbox, isDoneFor, handle_unilateral]
    case IDs => simp [parse_mailbox, isDoneFor, handle_unilateral]

lemma parse_mailbox_panics (tag : RequestId) (s0 : IStatus) (c0 : Option ResponseCode)
    (rest : List Response) (hs0 : s0 ≠ IStatus.Ok) :
    ∀ (pre : List Response) (acc : Mailbox),
      (∀ r ∈ pre, isMailboxPass r = true) →
      (parse_mailbox tag acc (pre ++ Response.Data s0 c0 :: rest)).out = .panicked := by
  intro pre
  induction pre with
  | nil =>
    intro acc _
    cases s0 with
    | Ok => exact absurd rfl hs0
    | No => rfl
    | Bad => rfl
    | PreAuth => rfl
    | Bye => rfl
  | cons r pre ih =>
    intro acc h
    have h' : ∀ x ∈ pre, isMailboxPass x = true :=
      fun x hx => h x (List.mem_cons_of_mem r hx)
    rw [List.cons_append]
    rcases mailboxPass_cases r (h r (List.mem_cons_self r _)) with hf | ⟨e, he⟩
    · rw [parse_mailbox_cons_fold tag acc r _ hf]
      exact ih _ h'
    · rw [parse_mailbox_cons_sink tag acc r _ e he]
      exact ih _ h'

/-- C8 counterexample: the claim "for any input containing a `Data` record
with status `No` or `Bad`, `parse_mailbox` panics" fails when such a record
sits behind a rejected record — here the run errors on the `Continue`
without ever reaching the `Data{No}`. -/
theorem c8_counterexample :
    (parse_mailbox "A1" Mailbox.default
      [Response.Continue none, Response.Data .No none, Response.Done "A1" .Ok none]).out
      = .error (Response.Continue none) := by decide

/-- C8 amended: the `unreachable!()` branch is never hit when every `Data`
record in the input has `Ok` status, and `parse_mailbox` panics (rather
than returning an error) whenever a non-`Ok` `Data` record is actually
reached, i.e. preceded only by records the fold consumes. -/
theorem c8_data_status (tag : RequestId) (l pre rest : List Response) (acc : Mailbox)
    (s0 : IStatus) (c0 : Option ResponseCode) :
    ((∀ s cc, Response.Data s cc ∈ l → s = IStatus.Ok) →
      (parse_mailbox tag acc l).out ≠ .panicked)
    ∧ (s0 ≠ IStatus.Ok → (∀ r ∈ pre, isMailboxPass r = true) →
      (parse_mailbox tag acc (pre ++ Response.Data s0 c0 :: rest)).out = .panicked) :=
  ⟨fun hok => parse_mailbox_no_panic tag l acc hok,
   fun hs0 hpass => parse_mailbox_panics tag s0 c0 rest hs0 pre acc hpass⟩

/-- Witness for C8 amended: an all-`Ok` input does not panic, and a
`Data{No}` record preceded by one fold record panics. -/
theorem c8_data_status_witness :
    ((parse_mailbox "A1" Mailbox.default
        [Response.Data .Ok none, Response.Done "A1" .Ok none]).out ≠ .panicked)
    ∧ (parse_mailbox "A1" Mailbox.default
        ([Response.MailboxData (.Exists 3)] ++ Response.Data .No none :: [])).out
      = .panicked :=
  ⟨(c8_data_status "A1" [Response.Data .Ok none, Response.Done "A1" .Ok none] [] []
      Mailbox.default .No none).1 (by intro s cc hm; simp at hm; exact hm.1),
   (c8_data_status "A1" [] [Response.MailboxData (.Exists 3)] [] Mailbox.default
      .No none).2 (by decide) (by decide)⟩

/-- Records that are `Continue` continuation requests. -/
def isContinue : Response → Bool
  | .Continue _ => true
  | _ => false

lemma init_loop_finds (info : Option String) (rest : List Response) :
    ∀ pre, (∀ r ∈ pre, isContinue r = false) →
      init_loop (pre ++ Response.Continue info :: rest) = some rest := by
  intro pre
  induction pre with
  | nil => exact fun _ => rfl
  | cons r pre ih =>
    intro h
    have h' := fun x hx => h x (List.mem_cons_of_mem r hx)
    have hr := h r (List.mem_cons_self r _)
    rcases r with i | ⟨t, s, cc⟩ | ⟨s, cc⟩ | d | ⟨n, a⟩ | n | cs | x
    · simp [isContinue] at hr
    all_goals exact ih h'

lemma init_loop_eof :
    ∀ l, (∀ r ∈ l, isContinue r = false) → init_loop l = none := by
  intro l
  induction l with
  | nil => exact fun _ => rfl
  | cons r l ih =>
    intro h
    have h' := fun x hx => h x (List.mem_cons_of_mem r hx)
    have hr := h r (List.mem_cons_self r _)
    rcases r with i | ⟨t, s, cc⟩ | ⟨s, cc⟩ | d | ⟨n, a⟩ | n | cs | x
    · simp [isContinue] at hr
    all_goals exact ih h'

/-- C5: `init()` issues `IDLE`, stores the minted tag in `id`, ignores
non-`Continue` responses until a `Continue` arrives and then succeeds; if
the stream ends without a `Continue`, it fails with the connection-refused
error (with `id` still set). -/
theorem c5_idle_init (s : SessionModel) (pre rest : List Response) (info : Option String) :
    (s.stream = pre ++ Response.Continue info :: rest →
      (∀ r ∈ pre, isContinue r = false) →
      Handle.init ⟨s, none⟩
        = (.ok (),
            ⟨{ sent := s.sent ++ [(some (mintTag s.nextTag), "IDLE")],
               stream := rest, nextTag := s.nextTag + 1 }, some (mintTag s.nextTag)⟩))
    ∧ ((∀ r ∈ s.stream, isContinue r = false) →
      Handle.init ⟨s, none⟩
        = (.error .connectionRefused,
            ⟨{ sent := s.sent ++ [(some (mintTag s.nextTag), "IDLE")],
               stream := [], nextTag := s.nextTag + 1 }, some (mintTag s.nextTag)⟩)) := by
  constructor
  · intro hs hp
    simp [Handle.init, SessionModel.run_command, hs, init_loop_finds info rest pre hp]
  · intro hall
    simp [Handle.init, SessionModel.run_command, init_loop_eof s.stream hall]

/-- Witness for C5: a non-`Continue` record is skipped before the
`Continue`, and a `Continue`-free stream refuses. -/
theorem c5_idle_init_witness :
    Handle.init ⟨⟨[], [Response.Expunge 2, Response.Continue none, Response.Fetch 1 []], 7⟩, none⟩
      = (.ok (),
          ⟨{ sent := [(some (mintTag 7), "IDLE")], stream := [Response.Fetch 1 []],
             nextTag := 8 }, some (mintTag 7)⟩)
    ∧ Handle.init ⟨⟨[], [Response.Expunge 2], 7⟩, none⟩
      = (.error .connectionRefused,
          ⟨{ sent := [(some (mintTag 7), "IDLE")], stream := [], nextTag := 8 },
            some (mintTag 7)⟩) :=
  ⟨(c5_idle_init ⟨[], [Response.Expunge 2, Response.Continue none, Response.Fetch 1 []], 7⟩
      [Response.Expunge 2] [Response.Fetch 1 []] none).1 rfl (by decide),
   (c5_idle_init ⟨[], [Response.Expunge 2], 7⟩ [] [] none).2 (by decide)⟩

lemma check_ok_run_cons_uni (t : RequestId) (r : Response) (l : List Response)
    (e : UnsolicitedResponse) (he : handle_unilateral r = some e) :
    check_ok_run t (r :: l)
      = ((check_ok_run t l).1, e :: (check_ok_run t l).2.1, (check_ok_run t l).2.2) := by
  rcases r with i | ⟨t', s, cc⟩ | ⟨s, cc⟩ | (n | fs | ⟨f, dl, nm⟩ | ⟨f, dl, nm⟩ | n | ⟨mb, s⟩) |
    ⟨n, a⟩ | n | cs | x <;> simp only [handle_unilateral, Option.some.injEq,
      reduceCtorEq] at he <;> subst he <;> rfl

lemma check_ok_run_drains (t : RequestId) (c : Option ResponseCode) (rest : List Response) :
    ∀ pre, (∀ r ∈ pre, isUnilateral r = true) →
      check_ok_run t (pre ++ Response.Done t IStatus.Ok c :: rest)
        = (.ok (), pre.filterMap handle_unilateral, rest) := by
  intro pre
  induction pre with
  | nil =>
    intro _
    simp [check_ok_run]
  | cons r pre ih =>
    intro h
    have h' := fun x hx => h x (List.mem_cons_of_mem r hx)
    obtain ⟨e, he⟩ := isUnilateral_exists r (h r (List.mem_cons_self r _))
    rw [List.cons_append, check_ok_run_cons_uni t r _ e he, ih h']
    simp [List.filterMap_cons, he]

/-- C9: `done()` panics when `id` is `None`; with `id = Some t` it sends the
untagged `DONE`, drains (routing unilateral records) to the `OK` reply
carrying the stored tag, and returns the session. -/
theorem c9_done (s : SessionModel) (t : RequestId) (c : Option ResponseCode)
    (pre rest : List Response) :
    Handle.done ⟨s, none⟩ = .panicked
    ∧ ((∀ r ∈ pre, isUnilateral r = true) →
      s.stream = pre ++ Response.Done t IStatus.Ok c :: rest →
      Handle.done ⟨s, some t⟩
        = .ok { sent := s.sent ++ [(none, "DONE")], stream := rest, nextTag := s.nextTag }
            (pre.filterMap handle_unilateral)) := by
  constructor
  · rfl
  · intro hp hs
    simp [Handle.done, SessionModel.run_command_untagged, hs,
      check_ok_run_drains t c rest pre hp]

/-- Witness for C9: one routed `RECENT` record before the tagged `OK`. -/
theorem c9_done_witness :
    Handle.done ⟨⟨[], [], 3⟩, none⟩ = .panicked
    ∧ Handle.done ⟨⟨[], [Response.MailboxData (.Recent 1),
          Response.Done "A9" IStatus.Ok none, Response.Expunge 5], 3⟩, some "A9"⟩
      = .ok { sent := [(none, "DONE")], stream := [Response.Expunge 5], nextTag := 3 }
          [.Recent 1] :=
  ⟨(c9_done ⟨[], [], 3⟩ "A9" none [] []).1,
   (c9_done ⟨[], [Response.MailboxData (.Recent 1), Response.Done "A9" IStatus.Ok none,
        Response.Expunge 5], 3⟩ "A9" none [Response.MailboxData (.Recent 1)]
      [Response.Expunge 5]).2 (by decide) rfl⟩

/-- C10: when `init()` fails because the stream ended before a `Continue`,
the `id` field has already been set to the minted tag and is not rolled
back, so neither `stream()` nor `done()` hits its `id`-is-`None` panic
afterwards. -/
theorem c10_init_failure_keeps_id (s : SessionModel)
    (h : ∀ r ∈ s.stream, isContinue r = false) :
    (Handle.init ⟨s, none⟩).1 = .error .connectionRefused
    ∧ (Handle.init ⟨s, none⟩).2.id = some (mintTag s.nextTag)
    ∧ (Handle.init ⟨s, none⟩).2.stream ≠ StreamOut.panicked
    ∧ (Handle.init ⟨s, none⟩).2.done ≠ DoneOut.panicked := by
  have hnone := init_loop_eof s.stream h
  refine ⟨?_, ?_, ?_, ?_⟩ <;>
    simp [Handle.init, SessionModel.run_command, SessionModel.run_command_untagged,
      Handle.stream, Handle.done, check_ok_run, hnone]

/-- Witness for C10: a stream holding a single `EXPUNGE` and no `Continue`. -/
theorem c10_init_failure_keeps_id_witness :
    (Handle.init ⟨⟨[], [Response.Expunge 2], 0⟩, none⟩).1 = .error .connectionRefused
    ∧ (Handle.init ⟨⟨[], [Response.Expunge 2], 0⟩, none⟩).2.id = some (mintTag 0)
    ∧ (Handle.init ⟨⟨[], [Response.Expunge 2], 0⟩, none⟩).2.stream ≠ StreamOut.panicked
    ∧ (Handle.init ⟨⟨[], [Response.Expunge 2], 0⟩, none⟩).2.done ≠ DoneOut.panicked :=
  c10_init_failure_keeps_id ⟨[], [Response.Expunge 2], 0⟩ (by decide)

end AsyncImap
